import Mathlib

/-!
Verification of the Peloton core subsystems: the resmgr priority queue,
the async worker pool, the goal-state engine contract, and the Mesos
cluster-manager plugin.  Go code is embedded shallowly: structs become
structures, mutation becomes explicit state passing, Go errors become
`Option String` / `Except String`, and Go ints become `Int`/`Nat`.
-/

/-- A task item of the resmgr priority queue (`resmgr/queue`): a priority
together with an opaque payload, here an identifying string. -/
structure TaskItem where
  priority : Int
  id : String
deriving Repr, DecidableEq

/-- The Go zero value `&TaskItem\x7b\x7d` returned by `Dequeue` on failure. -/
def emptyTaskItem : TaskItem := ⟨0, ""⟩

/-- Modelled from the spec: the `MultiLevelList` implementation used by
`resmgr/queue/priority.go` is not among the sources (only its caller is).
Following §3 and §4.A of the spec it is a mapping from priority to an
ordered FIFO sequence of items in which an empty level carries no entry;
here an association list from priority to the level's sequence. -/
structure MultiLevelList where
  levels : List (Int × List TaskItem)
deriving Repr, DecidableEq

/-- Mirrors `NewMultiLevelList`: the empty mapping. -/
def NewMultiLevelList : MultiLevelList := ⟨[]⟩

/-- Modelled from the spec (§4.A `Push`): append to the per-priority
sequence, registering the priority if newly non-empty. -/
def pushAux (p : Int) (ti : TaskItem) : List (Int × List TaskItem) → List (Int × List TaskItem)
  | [] => [(p, [ti])]
  | (q, xs) :: rest => if q = p then (q, xs ++ [ti]) :: rest else (q, xs) :: pushAux p ti rest

/-- Modelled from the spec (§4.A `Pop`): remove and return the head of the
priority's sequence, deregistering the priority if it becomes empty;
`none` models the `Empty` failure. -/
def popAux (p : Int) : List (Int × List TaskItem) → Option (TaskItem × List (Int × List TaskItem))
  | [] => none
  | (q, xs) :: rest =>
    if q = p then
      match xs with
      | [] => none
      | x :: xs' => some (x, if xs' = [] then rest else (q, xs') :: rest)
    else
      match popAux p rest with
      | none => none
      | some (it, r) => some (it, (q, xs) :: r)

/-- Modelled from the spec (§4.A `GetHighestLevel`): the maximum priority
with a non-empty sequence; `none` models the minus-infinity sentinel. -/
def hlAux : List (Int × List TaskItem) → Option Int
  | [] => none
  | (q, xs) :: rest =>
    match hlAux rest with
    | none => if xs = [] then none else some q
    | some m => if xs = [] then some m else some (max q m)

/-- Modelled from the spec (§4.A `Len`): the length of a priority's
sequence, `0` if the priority is absent. -/
def lenAux (p : Int) : List (Int × List TaskItem) → Nat
  | [] => 0
  | (q, xs) :: rest => if q = p then xs.length else lenAux p rest

/-- Total number of items held across all levels. -/
def totalLenAux : List (Int × List TaskItem) → Nat
  | [] => 0
  | (_, xs) :: rest => xs.length + totalLenAux rest

/-- Mirrors `MultiLevelList.Push`. -/
def MultiLevelList.Push (l : MultiLevelList) (p : Int) (ti : TaskItem) : MultiLevelList :=
  ⟨pushAux p ti l.levels⟩

/-- Mirrors `MultiLevelList.Pop`; the argument is the (possibly sentinel)
value returned by `GetHighestLevel`. -/
def MultiLevelList.Pop (l : MultiLevelList) (p : Option Int) : Option (TaskItem × MultiLevelList) :=
  match p with
  | none => none
  | some p => (popAux p l.levels).map (fun r => (r.1, ⟨r.2⟩))

/-- Mirrors `MultiLevelList.GetHighestLevel`. -/
def MultiLevelList.GetHighestLevel (l : MultiLevelList) : Option Int :=
  hlAux l.levels

/-- Mirrors `MultiLevelList.Len`. -/
def MultiLevelList.Len (l : MultiLevelList) (p : Int) : Nat :=
  lenAux p l.levels

/-- Sum of `Len p` over all (active) priorities; inactive priorities
contribute `Len p = 0`. -/
def MultiLevelList.sumOfLens (l : MultiLevelList) : Nat :=
  ((l.levels.map Prod.fst).map (fun p => lenAux p l.levels)).sum

/-- Total number of items in the list. -/
def MultiLevelList.totalLen (l : MultiLevelList) : Nat :=
  totalLenAux l.levels

/-- The priority queue of `resmgr/queue/priority.go`: a multi-level list
together with a limit and a running count (Go `int64`, here `Int`). -/
structure PriorityQueue where
  list : MultiLevelList
  limit : Int
  count : Int
deriving Repr, DecidableEq

/-- Mirrors `NewPriorityQueue`. -/
def NewPriorityQueue (limit : Int) : PriorityQueue :=
  ⟨NewMultiLevelList, limit, 0⟩

/-- The error message of `errors.New("Queue Limit is reached")`. -/
def queueLimitReachedMsg : String := "Queue Limit is reached"

/-- The `Empty` failure of a pop from an empty queue (the multi-level
list's error value is not among the sources; the spec calls the kind
`Empty`). -/
def emptyQueueMsg : String := "Empty"

/-- Mirrors `PriorityQueue.Enqueue`: refuse when `count >= limit`,
otherwise push at the item's priority and increment the count.  The pair
returns the Go error (if any) and the queue state after the call. -/
def PriorityQueue.Enqueue (f : PriorityQueue) (ti : TaskItem) : Option String × PriorityQueue :=
  if f.count ≥ f.limit then
    (some queueLimitReachedMsg, f)
  else
    (none, ⟨f.list.Push ti.priority ti, f.limit, f.count + 1⟩)

/-- Mirrors `PriorityQueue.Dequeue` executed without interference: peek
the highest level, pop it; on success decrement the count; on failure the
retry-loop guard (`highestPriority != f.list.GetHighestLevel()`) compares
two reads of the unchanged list, is false, and the empty sentinel is
returned together with the error. -/
def PriorityQueue.Dequeue (f : PriorityQueue) : (TaskItem × Option String) × PriorityQueue :=
  match f.list.Pop f.list.GetHighestLevel with
  | some (item, l') => ((item, none), ⟨l', f.limit, f.count - 1⟩)
  | none => ((emptyTaskItem, some emptyQueueMsg), f)

/-- Mirrors `PriorityQueue.Len`. -/
def PriorityQueue.Len (f : PriorityQueue) (priority : Int) : Nat :=
  f.list.Len priority

/-- One queue operation of a client: an enqueue of an item or a dequeue. -/
inductive QueueOp where
  | enq (ti : TaskItem)
  | deq
deriving Repr, DecidableEq

/-- Apply one operation to the queue, keeping only the resulting state. -/
def PriorityQueue.applyOp (f : PriorityQueue) : QueueOp → PriorityQueue
  | QueueOp.enq ti => (f.Enqueue ti).2
  | QueueOp.deq => f.Dequeue.2

/-- Run a sequence of operations from a starting state. -/
def PriorityQueue.runOps (f : PriorityQueue) (ops : List QueueOp) : PriorityQueue :=
  ops.foldl PriorityQueue.applyOp f

/-- Well-formedness of the multi-level list representation: level keys are
distinct and no registered level is empty (spec §3: an empty level carries
no index entry). -/
def MLWF (L : List (Int × List TaskItem)) : Prop :=
  (L.map Prod.fst).Nodup ∧ ∀ e ∈ L, e.2 ≠ []

/-- The observable invariant of claim C8: the count is within bounds and
equals the sum of the level lengths. -/
def PriorityQueue.Observable (f : PriorityQueue) : Prop :=
  0 ≤ f.count ∧ f.count ≤ f.limit ∧ f.count = (f.list.sumOfLens : Int)

/-- Internal strengthening of `Observable` used for the induction. -/
def PriorityQueue.StrongInv (f : PriorityQueue) : Prop :=
  MLWF f.list.levels ∧ 0 ≤ f.count ∧ f.count ≤ f.limit ∧
    f.count = (f.list.totalLen : Int)

/-- The retry loop of `PriorityQueue.Dequeue` under concurrent
interference, mirrored literally from the source.  `σ k` is the state of
the shared multi-level list at the k-th list observation (other threads
may mutate the list between observations).  Each loop iteration performs
three observations: the guard's `GetHighestLevel`, the body's
`GetHighestLevel`, and the body's `Pop`.  The result is the item obtained
by a successful retry pop (which the source then discards) paired with
the final value of `err` (`true` = non-nil). -/
def raceDequeueLoop (σ : Nat → MultiLevelList) : Nat → Nat → Option Int → Option TaskItem × Bool
  | 0, _, _ => (none, true)
  | fuel + 1, k, hp =>
    if hp = (σ k).GetHighestLevel then
      (none, true)
    else
      let hp2 := (σ (k + 1)).GetHighestLevel
      match (σ (k + 2)).Pop hp2 with
      | some (it, _) => (some it, false)
      | none => raceDequeueLoop σ fuel (k + 3) hp2

/-- The whole of `PriorityQueue.Dequeue` under concurrent interference.
Observation 0 is the initial `GetHighestLevel`, observation 1 the initial
`Pop`.  The result triple is: the `TaskItem` returned to the caller, the
error returned to the caller (`none` = Go `nil`), and the item a retry
pop removed from the list but the function discarded (`none` when no
retry pop succeeded). -/
def raceDequeue (σ : Nat → MultiLevelList) (fuel : Nat) : TaskItem × Option String × Option TaskItem :=
  match (σ 1).Pop ((σ 0).GetHighestLevel) with
  | some (it, _) => (it, none, none)
  | none =>
    match raceDequeueLoop σ fuel 2 ((σ 0).GetHighestLevel) with
    | (obtained, errFlag) =>
      (emptyTaskItem, if errFlag then some emptyQueueMsg else none, obtained)

/-- The worker pool of `common/async/pool.go`.  `optionsMaxWorkers` is
`p.options.MaxWorkers`, which is set at construction and never written
afterwards; `numWorkers` is `p.numWorkers`; `liveWorkers` counts the live
worker goroutines (a modelling field: one per `go p.runWorker()` minus
one per worker that returned). -/
structure Pool where
  optionsMaxWorkers : Int
  numWorkers : Int
  liveWorkers : Int
deriving Repr, DecidableEq

/-- Mirrors the constant `DefaultMaxWorkers`. -/
def DefaultMaxWorkers : Int := 4

/-- Mirrors `NewPool`: floor the option at the default, then spawn that
many workers. -/
def NewPool (maxWorkers : Int) : Pool :=
  if maxWorkers ≤ 0 then
    ⟨DefaultMaxWorkers, DefaultMaxWorkers, DefaultMaxWorkers⟩
  else
    ⟨maxWorkers, maxWorkers, maxWorkers⟩

/-- Mirrors `Pool.SetMaxWorkers`: floor the argument at the default, set
`numWorkers` to it, and spawn a worker for each `i` in
`[oldNum, num)`.  Note the source never updates `options.MaxWorkers`. -/
def Pool.SetMaxWorkers (p : Pool) (num : Int) : Pool :=
  if num ≤ 0 then
    ⟨p.optionsMaxWorkers, DefaultMaxWorkers,
      p.liveWorkers + max 0 (DefaultMaxWorkers - p.numWorkers)⟩
  else
    ⟨p.optionsMaxWorkers, num, p.liveWorkers + max 0 (num - p.numWorkers)⟩

/-- Mirrors `Pool.shouldWorkerStop`: compare `numWorkers` against
`options.MaxWorkers` and decrement on a positive answer. -/
def Pool.shouldWorkerStop (p : Pool) : Bool × Pool :=
  if p.numWorkers > p.optionsMaxWorkers then
    (true, ⟨p.optionsMaxWorkers, p.numWorkers - 1, p.liveWorkers⟩)
  else
    (false, p)

/-- The head of one iteration of `Pool.runWorker`: the worker checks
`shouldWorkerStop` and, on `true`, returns (its goroutine exits) before
taking another job from the queue. -/
def Pool.workerLoopCheck (p : Pool) : Bool × Pool :=
  match p.shouldWorkerStop with
  | (true, p') => (true, ⟨p'.optionsMaxWorkers, p'.numWorkers, p'.liveWorkers - 1⟩)
  | (false, p') => (false, p')

/-- Modelled from the spec: the goal-state engine implementation
(`common/goalstate/engine.go`) is not among the sources (only its test
file is).  Configuration of §4.D and §6: the backoff floor
`failureRetryDelay` and ceiling `maxRetryDelay`, as durations in
nanoseconds. -/
structure EngineConfig where
  failureRetryDelay : Nat
  maxRetryDelay : Nat
deriving Repr, DecidableEq

/-- Modelled from the spec: the engine's per-entity map item (§3),
carrying the entity id and the current backoff delay. -/
structure EntityMapItem where
  id : String
  delay : Nat
deriving Repr, DecidableEq

/-- Modelled from the spec (§4.D, dispatcher step 3, absent
`common/goalstate/engine.go`): run the entity's action list given the
outcome of each action (`some msg` = the action returned an error).  On
the first error the delay becomes
`min (max (delay * 2) failureRetryDelay) maxRetryDelay` and the entity is
rescheduled at `now + delay`; when no action errs (in particular for an
empty list) the delay resets to 0 and no reschedule happens.  The result
is the updated item and the reschedule deadline, if any. -/
def runActionList (cfg : EngineConfig) (item : EntityMapItem) (now : Nat)
    (results : List (Option String)) : EntityMapItem × Option Nat :=
  if results.any (fun r => r.isSome) then
    ⟨⟨item.id, min (max (item.delay * 2) cfg.failureRetryDelay) cfg.maxRetryDelay⟩,
      some (now + min (max (item.delay * 2) cfg.failureRetryDelay) cfg.maxRetryDelay)⟩
  else
    ⟨⟨item.id, 0⟩, none⟩

/-- Modelled from the spec: the engine's scheduling state (absent
`common/goalstate/engine.go`), as the map from entity id to its deadline
in the deadline queue (`none` when the entity is not scheduled). -/
structure EngineSchedule where
  scheduled : String → Option Nat

/-- Modelled from the spec (§4.D `Enqueue`, absent
`common/goalstate/engine.go`): register the entity if unknown and
schedule it no later than `deadline`; when already scheduled, keep the
earlier of the existing and the new deadline. -/
def engineEnqueue (s : EngineSchedule) (e : String) (deadline : Nat) : EngineSchedule :=
  ⟨fun x =>
    if x = e then
      match s.scheduled e with
      | none => some deadline
      | some d => some (min d deadline)
    else s.scheduled x⟩

/-- A Mesos offer as the plugin consumes it: identifier, agent id and an
opaque resource list (`pkg/hostmgr/p2k/plugins/mesos`). -/
structure MesosOffer where
  id : String
  agentId : String
  resources : List String
deriving Repr, DecidableEq

/-- Modelled from the spec: the `offerManager` of the Mesos plugin
(`pkg/hostmgr/p2k/plugins/mesos/offers.go`) is not among the sources
(only its caller `mesos.go` is).  Following §4.E it keeps per-host
buckets mapping offer ids to offers; here a bucket is the host's list of
offers. -/
structure OfferManager where
  buckets : List (String × List MesosOffer)
deriving Repr, DecidableEq

/-- Find a host's bucket, empty when the host has none. -/
def bucketAux : List (String × List MesosOffer) → String → List MesosOffer
  | [], _ => []
  | (h, os) :: rest, host => if h = host then os else bucketAux rest host

/-- Modelled from the spec (§4.E `GetOffers`): snapshot of the host's
current offers. -/
def OfferManager.GetOffers (om : OfferManager) (hostname : String) : List MesosOffer :=
  bucketAux om.buckets hostname

/-- Modelled from the spec (§4.E `RemoveOfferForHost`): drop the host's
entire bucket. -/
def OfferManager.RemoveOfferForHost (om : OfferManager) (hostname : String) : OfferManager :=
  ⟨om.buckets.filter (fun e => e.1 ≠ hostname)⟩

/-- A launchable pod handed to `LaunchPods`
(`pkg/hostmgr/models.LaunchablePod`): pod id plus an opaque spec. -/
structure LaunchablePod where
  podId : String
  spec : String
deriving Repr, DecidableEq

/-- A Mesos task info as built by `LaunchPods`: the task id and the agent
id assigned to it. -/
structure MesosTaskInfo where
  taskId : String
  agentId : String
deriving Repr, DecidableEq

/-- The `ACCEPT` call issued by `LaunchPods`: the offer ids it covers and
its operations, each operation being the task infos of one `LAUNCH`. -/
structure AcceptCall where
  offerIds : List String
  operations : List (List MesosTaskInfo)
deriving Repr, DecidableEq

/-- The `NoOffer` failure of `LaunchPods`
(`yarpcerrors.InternalErrorf("no offer found to launch pods on %s", hostname)`). -/
def noOfferMsg (hostname : String) : String :=
  "no offer found to launch pods on " ++ hostname

/-- Mirrors `MesosManager.LaunchPods`.  The conversion of a pod spec to a
Mesos task (`convertPodSpecToLaunchableTask` plus `task.Builder.Build`,
which live outside the plugin) is a parameter `convert`; `callOk` is the
outcome of the `schedulerClient.Call`.  The result carries the Go return
value, the offer-manager state after the call, and the `ACCEPT` call
issued to the cluster manager, if any. -/
def LaunchPods (convert : LaunchablePod → Except String MesosTaskInfo) (callOk : Bool)
    (om : OfferManager) (pods : List LaunchablePod) (hostname : String) :
    Except String (List LaunchablePod) × OfferManager × Option AcceptCall :=
  let offers := om.GetOffers hostname
  let offerIds := offers.map (fun o => o.id)
  if offerIds.isEmpty then
    (Except.error (noOfferMsg hostname), om, none)
  else
    match pods.mapM convert with
    | Except.error e => (Except.error e, om, none)
    | Except.ok builtTasks =>
      let agentID := ((offers.head?).map (fun o => o.agentId)).getD ""
      let mesosTasks := builtTasks.map (fun t => ⟨t.taskId, agentID⟩ : MesosTaskInfo → MesosTaskInfo)
      let call : AcceptCall := ⟨offerIds, [mesosTasks]⟩
      if callOk then
        (Except.ok pods, om.RemoveOfferForHost hostname, some call)
      else
        (Except.error "scheduler call failed", om, some call)

/-- The body of a pod event published downstream
(`pbpod.PodEvent` as filled by the plugin). -/
structure PodEventBody where
  podId : String
  actualState : String
  timestamp : String
  agentId : String
  hostname : String
  message : String
  reason : String
  healthy : String
deriving Repr, DecidableEq

/-- A `scalar.PodEvent`: the published body, the event type and the
acknowledgement event id (the Mesos status uuid). -/
structure PodEvent where
  event : PodEventBody
  eventType : String
  eventId : String
deriving Repr, DecidableEq

/-- A record of one `ACKNOWLEDGE` call issued by an ack worker, together
with the contents of the dedupe map `ackStatusMap` at the moment the call
was issued. -/
structure AckCallRec where
  eventId : String
  inflightAtCall : List String
deriving Repr, DecidableEq

/-- The observable state an ack worker acts on: the dedupe map
`ackStatusMap` (as the list of in-flight event ids), the
`TaskUpdateAckDeDupe` metric, and the `ACKNOWLEDGE` calls issued so
far. -/
structure AckState where
  inflight : List String
  dedupeMetric : Nat
  calls : List AckCallRec
deriving Repr, DecidableEq

/-- Mirrors one iteration of `MesosManager.ackPodEventWorker` on one pod
event taken from `ackChannel`: drop an empty event id; skip (and count) a
duplicate already in `ackStatusMap`; otherwise store the id, issue the
`ACKNOWLEDGE` call (`acknowledgeTaskUpdate`; its error is only logged),
and delete the id from the map after the send. -/
def ackPodEventStep (s : AckState) (pe : PodEvent) : AckState :=
  if pe.eventId = "" then
    s
  else if s.inflight.contains pe.eventId then
    ⟨s.inflight, s.dedupeMetric + 1, s.calls⟩
  else
    ⟨(pe.eventId :: s.inflight).erase pe.eventId,
      s.dedupeMetric,
      s.calls ++ [⟨pe.eventId, pe.eventId :: s.inflight⟩]⟩

/-- Mirrors the constant `mesosTaskUpdateAckChanSize`. -/
def mesosTaskUpdateAckChanSize : Nat := 1000

/-- The fields of `MesosManager` that govern acknowledgement processing:
the worker-count field `updateAckConcurrency`, the capacity of
`ackChannel`, and the channel's buffered contents. -/
structure MesosManager where
  updateAckConcurrency : Nat
  ackChannelCap : Nat
  ackChannel : List PodEvent
deriving Repr, DecidableEq

/-- Mirrors `NewMesosManager`: the composite literal sets the metrics,
clients, channels, offer manager and agent syncer, but carries no
`updateAckConcurrency` entry, so Go zero-initializes that field to 0;
`ackChannel` is created with capacity `mesosTaskUpdateAckChanSize`. -/
def NewMesosManager : MesosManager :=
  ⟨0, mesosTaskUpdateAckChanSize, []⟩

/-- Mirrors `MesosManager.startAsyncProcessTaskUpdates`: spawn one
`ackPodEventWorker` goroutine per loop iteration
(`for i := 0; i < m.updateAckConcurrency; i++`); the result is the number
of workers spawned. -/
def MesosManager.startAsyncProcessTaskUpdates (m : MesosManager) : Nat :=
  (List.range m.updateAckConcurrency).length

/-- Mirrors `MesosManager.AckPodEvent`: push the event onto
`ackChannel` (the send blocks once the buffer holds `ackChannelCap`
events; buffering is modelled by appending). -/
def MesosManager.AckPodEvent (m : MesosManager) (e : PodEvent) : MesosManager :=
  ⟨m.updateAckConcurrency, m.ackChannelCap, m.ackChannel ++ [e]⟩

/-- One scheduling round of the ack workers: each of the `workers` live
`ackPodEventWorker` goroutines can take one buffered event off the
channel; with zero workers nothing is ever consumed. -/
def consumeRound (workers : Nat) (channel : List PodEvent) : List PodEvent :=
  channel.drop workers

/-- A Mesos task status as read by `buildPodEventFromMesosTaskStatus`
through its protobuf getters; optional proto fields are `Option`, whose
getters default to the zero value. -/
structure MesosTaskStatus where
  taskId : String
  stateName : String
  healthy : Option Bool
  agentId : Option String
  timestampRaw : Nat
  message : String
  reasonName : String
  uuid : String
deriving Repr, DecidableEq

/-- The protobuf getter `GetHealthy`: false when the field is unset. -/
def MesosTaskStatus.GetHealthy (s : MesosTaskStatus) : Bool :=
  s.healthy.getD false

/-- The protobuf getter chain `GetAgentId().GetValue()`: empty when
unset. -/
def MesosTaskStatus.GetAgentIdValue (s : MesosTaskStatus) : String :=
  s.agentId.getD ""

/-- Mirrors `buildPodEventFromMesosTaskStatus`.  The state conversion
(`util.MesosStateToPelotonState` composed with
`api.ConvertTaskStateToPodState`) and the timestamp formatting
(`util.FormatTime` with `time.RFC3339Nano`) live outside the plugin and
are parameters. -/
def buildPodEventFromMesosTaskStatus (stateConv : String → String)
    (fmtTime : Nat → String) (evt : MesosTaskStatus) : PodEvent :=
  ⟨⟨evt.taskId,
    stateConv evt.stateName,
    fmtTime evt.timestampRaw,
    evt.GetAgentIdValue,
    evt.GetAgentIdValue,
    evt.message,
    evt.reasonName,
    if evt.GetHealthy then "HEALTH_STATE_HEALTHY" else "HEALTH_STATE_UNHEALTHY"⟩,
    "UpdatePod",
    evt.uuid⟩

theorem pushAux_totalLen (p : Int) (ti : TaskItem) (L : List (Int × List TaskItem)) :
    totalLenAux (pushAux p ti L) = totalLenAux L + 1 := by
  induction L with
  | nil => rfl
  | cons e rest ih =>
    obtain ⟨q, xs⟩ := e
    by_cases h : q = p
    · simp [pushAux, h, totalLenAux]
      omega
    · simp [pushAux, h, totalLenAux, ih]
      omega

theorem popAux_totalLen (p : Int) (L L' : List (Int × List TaskItem)) (it : TaskItem)
    (h : popAux p L = some (it, L')) : totalLenAux L' + 1 = totalLenAux L := by
  induction L generalizing L' with
  | nil => simp [popAux] at h
  | cons e rest ih =>
    obtain ⟨q, xs⟩ := e
    by_cases hq : q = p
    · cases xs with
      | nil => simp [popAux, hq] at h
      | cons x xs' =>
        by_cases hx : xs' = []
        · subst hx
          simp [popAux, hq] at h
          obtain ⟨h1, h2⟩ := h
          subst h2
          simp [totalLenAux]
          omega
        · simp [popAux, hq, hx] at h
          obtain ⟨h1, h2⟩ := h
          subst h2
          simp [totalLenAux]
          omega
    · cases hrec : popAux p rest with
      | none => simp [popAux, hq, hrec] at h
      | some pr =>
        obtain ⟨it2, r⟩ := pr
        simp [popAux, hq, hrec] at h
        obtain ⟨h1, h2⟩ := h
        subst h2
        rw [h1] at hrec
        have hr := ih r hrec
        simp [totalLenAux]
        omega

theorem hlAux_mem (L : List (Int × List TaskItem)) (p : Int) (h : hlAux L = some p) :
    ∃ xs, (p, xs) ∈ L := by
  induction L generalizing p with
  | nil => simp [hlAux] at h
  | cons e rest ih =>
    obtain ⟨q, xs⟩ := e
    cases hr : hlAux rest with
    | none =>
      by_cases hx : xs = []
      · simp [hlAux, hr, hx] at h
      · simp [hlAux, hr, hx] at h
        exact ⟨xs, by simp [h]⟩
    | some m =>
      by_cases hx : xs = []
      · simp [hlAux, hr, hx] at h
        obtain ⟨ys, hys⟩ := ih p (h ▸ hr)
        exact ⟨ys, List.mem_cons_of_mem _ hys⟩
      · simp [hlAux, hr, hx] at h
        rcases max_choice q m with hc | hc
        · rw [hc] at h
          exact ⟨xs, by simp [h]⟩
        · rw [hc] at h
          obtain ⟨ys, hys⟩ := ih p (h ▸ hr)
          exact ⟨ys, List.mem_cons_of_mem _ hys⟩

theorem popAux_isSome_of_mem (p : Int) (L : List (Int × List TaskItem))
    (hwf : ∀ e ∈ L, e.2 ≠ []) (hp : ∃ xs, (p, xs) ∈ L) : (popAux p L).isSome := by
  induction L with
  | nil => simp at hp
  | cons e rest ih =>
    obtain ⟨q, ys⟩ := e
    by_cases hq : q = p
    · subst hq
      have hne : ys ≠ [] := hwf (q, ys) (List.mem_cons_self _ _)
      cases ys with
      | nil => exact absurd rfl hne
      | cons x xs' => simp [popAux]
    · obtain ⟨xs, hxs⟩ := hp
      have hmem : (p, xs) ∈ rest := by
        rcases List.mem_cons.mp hxs with h1 | h1
        · exact absurd (congrArg Prod.fst h1).symm hq
        · exact h1
      have hs := ih (fun e he => hwf e (List.mem_cons_of_mem _ he)) ⟨xs, hmem⟩
      cases hrec : popAux p rest with
      | none => rw [hrec] at hs; simp at hs
      | some pr => simp [popAux, hq, hrec]

theorem hlAux_isSome (L : List (Int × List TaskItem)) (hwf : ∀ e ∈ L, e.2 ≠ [])
    (hne : L ≠ []) : ∃ p, hlAux L = some p := by
  cases L with
  | nil => exact absurd rfl hne
  | cons e rest =>
    obtain ⟨q, xs⟩ := e
    have hxs : xs ≠ [] := hwf (q, xs) (List.mem_cons_self _ _)
    cases hr : hlAux rest with
    | none => exact ⟨q, by simp [hlAux, hr, hxs]⟩
    | some m => exact ⟨max q m, by simp [hlAux, hr, hxs]⟩

theorem pushAux_keys_subset (p : Int) (ti : TaskItem) (L : List (Int × List TaskItem)) :
    ∀ r xs, (r, xs) ∈ pushAux p ti L → (∃ ys, (r, ys) ∈ L) ∨ r = p := by
  induction L with
  | nil =>
    intro r xs hr
    simp [pushAux] at hr
    right
    exact hr.1
  | cons e rest ih =>
    obtain ⟨q, ys⟩ := e
    intro r xs hr
    by_cases hq : q = p
    · simp only [pushAux, if_pos hq] at hr
      rcases List.mem_cons.mp hr with h1 | h1
      · left
        refine ⟨ys, ?_⟩
        have hrq : r = q := congrArg Prod.fst h1
        rw [hrq]
        exact List.mem_cons_self _ _
      · left
        exact ⟨xs, List.mem_cons_of_mem _ h1⟩
    · simp only [pushAux, if_neg hq] at hr
      rcases List.mem_cons.mp hr with h1 | h1
      · left
        refine ⟨ys, ?_⟩
        have hrq : r = q := congrArg Prod.fst h1
        rw [hrq]
        exact List.mem_cons_self _ _
      · rcases ih r xs h1 with h2 | h2
        · left
          obtain ⟨zs, hzs⟩ := h2
          exact ⟨zs, List.mem_cons_of_mem _ hzs⟩
        · right
          exact h2

theorem pushAux_nodup (p : Int) (ti : TaskItem) (L : List (Int × List TaskItem))
    (h : (L.map Prod.fst).Nodup) : ((pushAux p ti L).map Prod.fst).Nodup := by
  induction L with
  | nil => simp [pushAux]
  | cons e rest ih =>
    obtain ⟨q, ys⟩ := e
    rw [List.map_cons, List.nodup_cons] at h
    obtain ⟨hq_not, hrest⟩ := h
    by_cases hq : q = p
    · simp only [pushAux, if_pos hq]
      rw [List.map_cons, List.nodup_cons]
      exact ⟨hq_not, hrest⟩
    · simp only [pushAux, if_neg hq]
      rw [List.map_cons, List.nodup_cons]
      refine ⟨?_, ih hrest⟩
      intro hmem
      rw [List.mem_map] at hmem
      obtain ⟨⟨a, b⟩, hab, hfst⟩ := hmem
      rcases pushAux_keys_subset p ti rest a b hab with h1 | h1
      · obtain ⟨zs, hzs⟩ := h1
        apply hq_not
        rw [List.mem_map]
        exact ⟨(a, zs), hzs, hfst⟩
      · exact hq (hfst.symm.trans h1)

theorem pushAux_wf2 (p : Int) (ti : TaskItem) (L : List (Int × List TaskItem))
    (h : ∀ e ∈ L, e.2 ≠ []) : ∀ e ∈ pushAux p ti L, e.2 ≠ [] := by
  induction L with
  | nil =>
    intro e he
    simp [pushAux] at he
    rw [he]
    simp
  | cons f rest ih =>
    obtain ⟨q, ys⟩ := f
    intro e he
    by_cases hq : q = p
    · simp only [pushAux, if_pos hq] at he
      rcases List.mem_cons.mp he with h1 | h1
      · rw [h1]
        simp
      · exact h e (List.mem_cons_of_mem _ h1)
    · simp only [pushAux, if_neg hq] at he
      rcases List.mem_cons.mp he with h1 | h1
      · rw [h1]
        exact h (q, ys) (List.mem_cons_self _ _)
      · exact ih (fun e2 he2 => h e2 (List.mem_cons_of_mem _ he2)) e h1

theorem popAux_keys_sublist (p : Int) (L L' : List (Int × List TaskItem)) (it : TaskItem)
    (h : popAux p L = some (it, L')) :
    (L'.map Prod.fst).Sublist (L.map Prod.fst) := by
  induction L generalizing L' with
  | nil => simp [popAux] at h
  | cons e rest ih =>
    obtain ⟨q, ys⟩ := e
    by_cases hq : q = p
    · subst hq
      cases ys with
      | nil => simp [popAux] at h
      | cons x xs' =>
        by_cases hx : xs' = []
        · subst hx
          simp [popAux] at h
          obtain ⟨h1, h2⟩ := h
          subst h2
          exact List.sublist_cons_self _ _
        · simp [popAux, hx] at h
          obtain ⟨h1, h2⟩ := h
          subst h2
          simp only [List.map_cons]
          exact List.Sublist.cons₂ _ (List.Sublist.refl _)
    · cases hrec : popAux p rest with
      | none => simp [popAux, hq, hrec] at h
      | some pr =>
        obtain ⟨it2, r⟩ := pr
        simp [popAux, hq, hrec] at h
        obtain ⟨h1, h2⟩ := h
        subst h2
        rw [h1] at hrec
        simp only [List.map_cons]
        exact List.Sublist.cons₂ _ (ih r hrec)

theorem popAux_wf2 (p : Int) (L L' : List (Int × List TaskItem)) (it : TaskItem)
    (hwf : ∀ e ∈ L, e.2 ≠ []) (h : popAux p L = some (it, L')) :
    ∀ e ∈ L', e.2 ≠ [] := by
  induction L generalizing L' with
  | nil => simp [popAux] at h
  | cons e0 rest ih =>
    obtain ⟨q, ys⟩ := e0
    by_cases hq : q = p
    · subst hq
      cases ys with
      | nil => simp [popAux] at h
      | cons x xs' =>
        by_cases hx : xs' = []
        · subst hx
          simp [popAux] at h
          obtain ⟨h1, h2⟩ := h
          subst h2
          exact fun e he => hwf e (List.mem_cons_of_mem _ he)
        · simp [popAux, hx] at h
          obtain ⟨h1, h2⟩ := h
          subst h2
          intro e he
          rcases List.mem_cons.mp he with h3 | h3
          · rw [h3]
            exact hx
          · exact hwf e (List.mem_cons_of_mem _ h3)
    · cases hrec : popAux p rest with
      | none => simp [popAux, hq, hrec] at h
      | some pr =>
        obtain ⟨it2, r⟩ := pr
        simp [popAux, hq, hrec] at h
        obtain ⟨h1, h2⟩ := h
        subst h2
        rw [h1] at hrec
        intro e he
        rcases List.mem_cons.mp he with h3 | h3
        · rw [h3]
          exact hwf (q, ys) (List.mem_cons_self _ _)
        · exact ih r (fun e2 he2 => hwf e2 (List.mem_cons_of_mem _ he2)) hrec e h3

theorem sumOfLens_eq_totalLen (L : List (Int × List TaskItem))
    (h : (L.map Prod.fst).Nodup) :
    ((L.map Prod.fst).map (fun p => lenAux p L)).sum = totalLenAux L := by
  induction L with
  | nil => rfl
  | cons e rest ih =>
    obtain ⟨q, xs⟩ := e
    rw [List.map_cons, List.nodup_cons] at h
    obtain ⟨hq_not, hrest⟩ := h
    rw [List.map_cons, List.map_cons, List.sum_cons]
    have hhead : lenAux q ((q, xs) :: rest) = xs.length := by simp [lenAux]
    have hcong : (rest.map Prod.fst).map (fun p => lenAux p ((q, xs) :: rest)) =
        (rest.map Prod.fst).map (fun p => lenAux p rest) := by
      apply List.map_congr_left
      intro a ha
      have haq : ¬ (q = a) := by
        intro hqa
        rw [hqa] at hq_not
        exact hq_not ha
      simp [lenAux, haq]
    rw [hhead, hcong, ih hrest]
    simp [totalLenAux]

theorem Enqueue_strongInv (f : PriorityQueue) (ti : TaskItem) (h : f.StrongInv) :
    (f.Enqueue ti).2.StrongInv := by
  obtain ⟨⟨hnd, hwf2⟩, h0, hlim, hcnt⟩ := h
  unfold PriorityQueue.Enqueue
  by_cases hge : f.count ≥ f.limit
  · rw [if_pos hge]
    exact ⟨⟨hnd, hwf2⟩, h0, hlim, hcnt⟩
  · rw [if_neg hge]
    refine ⟨⟨pushAux_nodup _ _ _ hnd, pushAux_wf2 _ _ _ hwf2⟩, ?_, ?_, ?_⟩
    · dsimp only
      omega
    · dsimp only
      omega
    · dsimp only
      rw [MultiLevelList.totalLen] at hcnt ⊢
      show f.count + 1 = ((totalLenAux (pushAux ti.priority ti f.list.levels) : Nat) : Int)
      rw [pushAux_totalLen]
      push_cast
      omega

theorem Dequeue_strongInv (f : PriorityQueue) (h : f.StrongInv) :
    f.Dequeue.2.StrongInv := by
  obtain ⟨⟨hnd, hwf2⟩, h0, hlim, hcnt⟩ := h
  unfold PriorityQueue.Dequeue
  cases hl : f.list.GetHighestLevel with
  | none =>
    simp only [MultiLevelList.Pop]
    exact ⟨⟨hnd, hwf2⟩, h0, hlim, hcnt⟩
  | some p =>
    cases hpa : popAux p f.list.levels with
    | none =>
      simp only [MultiLevelList.Pop, hpa, Option.map_none']
      exact ⟨⟨hnd, hwf2⟩, h0, hlim, hcnt⟩
    | some pr =>
      obtain ⟨it, L'⟩ := pr
      simp only [MultiLevelList.Pop, hpa, Option.map_some']
      have htl := popAux_totalLen p f.list.levels L' it hpa
      refine ⟨⟨?_, ?_⟩, ?_, ?_, ?_⟩
      · exact List.Nodup.sublist (popAux_keys_sublist p _ _ _ hpa) hnd
      · exact popAux_wf2 p _ _ _ hwf2 hpa
      · dsimp only
        rw [MultiLevelList.totalLen] at hcnt
        omega
      · dsimp only
        omega
      · dsimp only
        rw [MultiLevelList.totalLen] at hcnt ⊢
        dsimp only
        omega

theorem runOps_strongInv (ops : List QueueOp) :
    ∀ f : PriorityQueue, f.StrongInv → (f.runOps ops).StrongInv := by
  induction ops with
  | nil =>
    intro f h
    exact h
  | cons op rest ih =>
    intro f h
    have h1 : (f.applyOp op).StrongInv := by
      cases op with
      | enq ti => exact Enqueue_strongInv f ti h
      | deq => exact Dequeue_strongInv f h
    exact ih _ h1

/-- C8: for every priority queue created by `NewPriorityQueue` with a
non-negative limit and every sequence of `Enqueue` and `Dequeue`
operations, at every observable moment `0 ≤ count ≤ limit` holds and
`count` equals the sum of `Len p` over all priorities `p` (priorities
without a level contribute `Len p = 0`). -/
theorem priority_queue_count_invariant (limit : Int) (hlim : 0 ≤ limit)
    (ops : List QueueOp) : ((NewPriorityQueue limit).runOps ops).Observable := by
  have h0 : (NewPriorityQueue limit).StrongInv := by
    refine ⟨⟨?_, ?_⟩, le_refl 0, hlim, rfl⟩
    · simp [NewPriorityQueue, NewMultiLevelList]
    · simp [NewPriorityQueue, NewMultiLevelList]
  have hinv := runOps_strongInv ops _ h0
  obtain ⟨⟨hnd, hwf2⟩, ha, hb, hc⟩ := hinv
  refine ⟨ha, hb, ?_⟩
  rw [hc]
  rw [MultiLevelList.totalLen, MultiLevelList.sumOfLens]
  norm_cast
  exact (sumOfLens_eq_totalLen _ hnd).symm

/-- Witness for C8 at limit 2 and a concrete operation sequence. -/
theorem priority_queue_count_invariant_witness :
    0 ≤ (2 : Int) ∧
      ((NewPriorityQueue 2).runOps
        [QueueOp.enq ⟨1, "a"⟩, QueueOp.enq ⟨2, "b"⟩, QueueOp.deq]).Observable :=
  ⟨by decide, priority_queue_count_invariant 2 (by decide)
    [QueueOp.enq ⟨1, "a"⟩, QueueOp.enq ⟨2, "b"⟩, QueueOp.deq]⟩

/-- C6: for every priority queue whose count has reached its limit,
`Enqueue` returns the queue-limit-reached error and leaves the queue
unchanged; and on a well-formed full queue with a positive limit, a
`Dequeue` followed by an `Enqueue` succeeds. -/
theorem priority_queue_limit_reached (f : PriorityQueue) (ti ti2 : TaskItem) :
    (f.count ≥ f.limit → f.Enqueue ti = (some queueLimitReachedMsg, f)) ∧
    (f.StrongInv → f.count = f.limit → 0 < f.limit →
      f.Dequeue.1.2 = none ∧ (f.Dequeue.2.Enqueue ti2).1 = none) := by
  constructor
  · intro hge
    simp [PriorityQueue.Enqueue, hge]
  · intro hinv heq hpos
    obtain ⟨⟨hnd, hwf2⟩, h0, hlim, hcnt⟩ := hinv
    have htl : 0 < (f.list.totalLen : Int) := by omega
    have htl2 : 0 < f.list.totalLen := by exact_mod_cast htl
    have hne : f.list.levels ≠ [] := by
      intro hnil
      rw [MultiLevelList.totalLen, hnil] at htl2
      simp [totalLenAux] at htl2
    obtain ⟨p, hp⟩ := hlAux_isSome f.list.levels hwf2 hne
    have hmem := hlAux_mem _ _ hp
    have hsome := popAux_isSome_of_mem p f.list.levels hwf2 hmem
    cases hpa : popAux p f.list.levels with
    | none =>
      rw [hpa] at hsome
      simp at hsome
    | some pr =>
      obtain ⟨it, L'⟩ := pr
      have hdq : f.Dequeue = ((it, none), ⟨⟨L'⟩, f.limit, f.count - 1⟩) := by
        unfold PriorityQueue.Dequeue
        have hgl : f.list.GetHighestLevel = some p := hp
        rw [hgl]
        simp [MultiLevelList.Pop, hpa]
      rw [hdq]
      refine ⟨rfl, ?_⟩
      have hlt : ¬ ((f.count - 1 : Int) ≥ f.limit) := by omega
      simp [PriorityQueue.Enqueue, hlt]

/-- Witness for C6 on a full queue of limit 1 holding one item. -/
theorem priority_queue_limit_reached_witness :
    ((⟨⟨[(5, [⟨5, "a"⟩])]⟩, 1, 1⟩ : PriorityQueue).Enqueue ⟨1, "x"⟩ =
        (some queueLimitReachedMsg, ⟨⟨[(5, [⟨5, "a"⟩])]⟩, 1, 1⟩)) ∧
      ((⟨⟨[(5, [⟨5, "a"⟩])]⟩, 1, 1⟩ : PriorityQueue).Dequeue.1.2 = none ∧
        (((⟨⟨[(5, [⟨5, "a"⟩])]⟩, 1, 1⟩ : PriorityQueue).Dequeue.2).Enqueue ⟨1, "y"⟩).1 = none) := by
  constructor
  · exact (priority_queue_limit_reached ⟨⟨[(5, [⟨5, "a"⟩])]⟩, 1, 1⟩ ⟨1, "x"⟩ ⟨1, "y"⟩).1
      (by decide)
  · exact (priority_queue_limit_reached ⟨⟨[(5, [⟨5, "a"⟩])]⟩, 1, 1⟩ ⟨1, "x"⟩ ⟨1, "y"⟩).2
      (by refine ⟨⟨?_, ?_⟩, ?_, ?_, ?_⟩ <;> decide) rfl (by decide)

/-- C7 exhibit: the source's `Dequeue` retry loop mishandles the race it
is written for.  First conjunct: the level-5 item is taken by another
consumer between peek and pop, the retry pop then succeeds on level 3 and
obtains the item, yet `Dequeue` returns the empty sentinel item with a
nil error, discarding the popped item (and never decrementing the count).
Second conjunct: when the re-peeked highest level equals the stale peek,
the loop exits with the `Empty` error although the queue is non-empty and
no value was obtained. -/
theorem dequeue_retry_loses_item :
    raceDequeue
        (fun k => if k = 0 then ⟨[(5, [⟨5, "a"⟩]), (3, [⟨3, "b"⟩])]⟩
          else ⟨[(3, [⟨3, "b"⟩])]⟩) 5 =
      (emptyTaskItem, none, some ⟨3, "b"⟩) ∧
    raceDequeue
        (fun k => if k = 0 then ⟨[(5, [⟨5, "a"⟩])]⟩
          else if k = 1 then ⟨[]⟩ else ⟨[(5, [⟨5, "c"⟩])]⟩) 5 =
      (emptyTaskItem, some emptyQueueMsg, none) := by
  constructor
  · rfl
  · rfl

/-- C1: for every action-list run of a registered entity that fails, the
engine sets the backoff delay to
`min (max (delay * 2) failureRetryDelay) maxRetryDelay` and reschedules
the entity at `now + delay`; for every run in which all actions return no
error, the delay is reset to 0. -/
theorem engine_backoff_and_reset (cfg : EngineConfig) (item : EntityMapItem)
    (now : Nat) (results : List (Option String)) :
    ((∃ r ∈ results, r.isSome) →
      (runActionList cfg item now results).1.delay =
          min (max (item.delay * 2) cfg.failureRetryDelay) cfg.maxRetryDelay ∧
      (runActionList cfg item now results).2 =
          some (now + min (max (item.delay * 2) cfg.failureRetryDelay) cfg.maxRetryDelay)) ∧
    ((∀ r ∈ results, r = none) →
      (runActionList cfg item now results).1.delay = 0 ∧
      (runActionList cfg item now results).2 = none) := by
  constructor
  · intro h
    have hany : results.any (fun r => r.isSome) = true := by
      rcases h with ⟨r, hr, hs⟩
      exact List.any_eq_true.mpr ⟨r, hr, hs⟩
    simp [runActionList, hany]
  · intro h
    have hany : results.any (fun r => r.isSome) = false := by
      rw [List.any_eq_false]
      intro r hr
      rw [h r hr]
      simp
    simp [runActionList, hany]

/-- Witness for C1: a failed run with delay 1, floor 3 and ceiling 4
yields delay 3 and a reschedule at 10 + 3; a successful run resets the
delay to 0 with no reschedule. -/
theorem engine_backoff_and_reset_witness :
    (runActionList ⟨3, 4⟩ ⟨"e", 1⟩ 10 [some "boom"]).1.delay = 3 ∧
    (runActionList ⟨3, 4⟩ ⟨"e", 1⟩ 10 [some "boom"]).2 = some 13 ∧
    (runActionList ⟨3, 4⟩ ⟨"e", 5⟩ 10 [none]).1.delay = 0 ∧
    (runActionList ⟨3, 4⟩ ⟨"e", 5⟩ 10 [none]).2 = none := by
  have h1 := (engine_backoff_and_reset ⟨3, 4⟩ ⟨"e", 1⟩ 10 [some "boom"]).1
    ⟨some "boom", by simp, by simp⟩
  have h2 := (engine_backoff_and_reset ⟨3, 4⟩ ⟨"e", 5⟩ 10 [none]).2 (by simp)
  exact ⟨h1.1.trans (by norm_num), h1.2.trans (by norm_num), h2.1, h2.2⟩

/-- C2: two successive `Enqueue` calls for the same entity schedule it no
later than the minimum of the two deadlines; an existing earlier deadline
is kept, a later one is tightened to the new deadline; and `Enqueue` is
idempotent. -/
theorem engine_enqueue_min_deadline (s : EngineSchedule) (e : String) (t1 t2 : Nat) :
    (∃ d, (engineEnqueue (engineEnqueue s e t1) e t2).scheduled e = some d ∧
        d ≤ min t1 t2) ∧
    (∀ d0, s.scheduled e = some d0 → d0 ≤ t1 →
        (engineEnqueue s e t1).scheduled e = some d0) ∧
    (∀ d0, s.scheduled e = some d0 → t1 ≤ d0 →
        (engineEnqueue s e t1).scheduled e = some t1) ∧
    engineEnqueue (engineEnqueue s e t1) e t1 = engineEnqueue s e t1 := by
  refine ⟨?_, ?_, ?_, ?_⟩
  · cases h : s.scheduled e with
    | none =>
      refine ⟨min t1 t2, ?_, le_refl _⟩
      simp [engineEnqueue, h]
    | some d =>
      refine ⟨min (min d t1) t2, ?_, ?_⟩
      · simp [engineEnqueue, h]
      · exact min_le_min (min_le_right d t1) (le_refl t2)
  · intro d0 h hle
    simp [engineEnqueue, h, min_eq_left hle]
  · intro d0 h hle
    simp [engineEnqueue, h, min_eq_right hle]
  · unfold engineEnqueue
    apply congrArg
    funext x
    by_cases hx : x = e
    · subst hx
      cases h : s.scheduled x with
      | none => simp [h, min_self]
      | some d => simp [h, min_assoc, min_self]
    · simp [hx]

/-- Witness for C2 on a concrete schedule holding deadline 7 for the
entity. -/
theorem engine_enqueue_min_deadline_witness :
    (∃ d, (engineEnqueue (engineEnqueue ⟨fun x => if x = "e" then some 7 else none⟩ "e" 5)
        "e" 9).scheduled "e" = some d ∧ d ≤ min 5 9) ∧
    (engineEnqueue ⟨fun x => if x = "e" then some 7 else none⟩ "e" 9).scheduled "e" = some 7 ∧
    (engineEnqueue ⟨fun x => if x = "e" then some 7 else none⟩ "e" 5).scheduled "e" = some 5 := by
  refine ⟨(engine_enqueue_min_deadline ⟨fun x => if x = "e" then some 7 else none⟩ "e" 5 9).1,
    ?_, ?_⟩
  · exact (engine_enqueue_min_deadline ⟨fun x => if x = "e" then some 7 else none⟩ "e" 9 0).2.1
      7 (by simp) (by norm_num)
  · exact (engine_enqueue_min_deadline ⟨fun x => if x = "e" then some 7 else none⟩ "e" 5 0).2.2.1
      7 (by simp) (by norm_num)

/-- C3 exhibit: `SetMaxWorkers` never updates `options.MaxWorkers`, and
`shouldWorkerStop` compares against that stale construction-time value.
Shrinking a pool of 4 workers to 2 leaves `shouldWorkerStop` false for
every worker, so all 4 stay alive and none self-terminates; conversely,
growing the pool to 6 spawns 2 more workers but `shouldWorkerStop` then
turns true and kills workers back down toward the construction-time 4,
violating the live-workers lower bound. -/
theorem pool_lazy_shrink_broken :
    (((NewPool 4).SetMaxWorkers 2).workerLoopCheck =
        (false, (NewPool 4).SetMaxWorkers 2)) ∧
    ((NewPool 4).SetMaxWorkers 2).liveWorkers = 4 ∧
    ((NewPool 4).SetMaxWorkers 2).numWorkers = 2 ∧
    ((NewPool 4).SetMaxWorkers 6).liveWorkers = 6 ∧
    (((NewPool 4).SetMaxWorkers 6).workerLoopCheck).1 = true ∧
    (((NewPool 4).SetMaxWorkers 6).workerLoopCheck).2.liveWorkers = 5 := by
  refine ⟨?_, ?_, ?_, ?_, ?_, ?_⟩ <;> decide

theorem ackChannel_foldl (events : List PodEvent) :
    ∀ m : MesosManager, (events.foldl MesosManager.AckPodEvent m).ackChannel =
      m.ackChannel ++ events := by
  induction events with
  | nil =>
    intro m
    simp
  | cons e rest ih =>
    intro m
    rw [List.foldl_cons, ih]
    simp [MesosManager.AckPodEvent]

/-- C9: `NewMesosManager` leaves `updateAckConcurrency` at the Go zero
value 0, so `Start` spawns zero `ackPodEventWorker` goroutines, and
events pushed through `AckPodEvent` accumulate in the 1000-slot
`ackChannel` without ever being consumed. -/
theorem mesos_manager_zero_ack_workers (events : List PodEvent) :
    NewMesosManager.updateAckConcurrency = 0 ∧
    NewMesosManager.startAsyncProcessTaskUpdates = 0 ∧
    NewMesosManager.ackChannelCap = 1000 ∧
    (events.foldl MesosManager.AckPodEvent NewMesosManager).ackChannel = events ∧
    consumeRound NewMesosManager.startAsyncProcessTaskUpdates
        (events.foldl MesosManager.AckPodEvent NewMesosManager).ackChannel =
      (events.foldl MesosManager.AckPodEvent NewMesosManager).ackChannel := by
  refine ⟨rfl, rfl, rfl, ?_, ?_⟩
  · rw [ackChannel_foldl]
    simp [NewMesosManager]
  · simp [consumeRound, MesosManager.startAsyncProcessTaskUpdates, NewMesosManager]

/-- C10: every pod event built from an `UPDATE` status carries the
status's agent-id value in its `Hostname` field (it equals the `AgentId`
field and is never a hostname), and its `Healthy` field is
`HEALTH_STATE_HEALTHY` exactly when the status's healthy flag is true,
`HEALTH_STATE_UNHEALTHY` otherwise. -/
theorem pod_event_hostname_and_healthy (stateConv : String → String)
    (fmtTime : Nat → String) (evt : MesosTaskStatus) :
    (buildPodEventFromMesosTaskStatus stateConv fmtTime evt).event.hostname =
        evt.GetAgentIdValue ∧
    (buildPodEventFromMesosTaskStatus stateConv fmtTime evt).event.hostname =
        (buildPodEventFromMesosTaskStatus stateConv fmtTime evt).event.agentId ∧
    (buildPodEventFromMesosTaskStatus stateConv fmtTime evt).event.healthy =
        (if evt.GetHealthy then "HEALTH_STATE_HEALTHY" else "HEALTH_STATE_UNHEALTHY") ∧
    ((buildPodEventFromMesosTaskStatus stateConv fmtTime evt).event.healthy =
        "HEALTH_STATE_HEALTHY" ↔ evt.GetHealthy = true) := by
  refine ⟨rfl, rfl, rfl, ?_⟩
  by_cases h : evt.GetHealthy
  · simp [buildPodEventFromMesosTaskStatus, h]
  · have hne : ("HEALTH_STATE_UNHEALTHY" : String) = "HEALTH_STATE_HEALTHY" ↔ False := by
      constructor
      · intro hcontr
        exact absurd hcontr (by decide)
      · intro hcontr
        exact absurd hcontr not_false
    simp [buildPodEventFromMesosTaskStatus, h, hne]

/-- C5: an ack worker drops an event with an empty event id without any
`ACKNOWLEDGE` call; an event id already in the in-flight set is skipped
and only counted through the dedupe metric; otherwise the id is stored in
the set before the `ACKNOWLEDGE` call (the recorded call carries the
in-flight set at call time, which contains the id) and removed after the
send, so the set returns to its prior contents. -/
theorem ack_worker_dedupe_guarantee (s : AckState) (pe : PodEvent) :
    (pe.eventId = "" → ackPodEventStep s pe = s) ∧
    (pe.eventId ≠ "" → s.inflight.contains pe.eventId = true →
      (ackPodEventStep s pe).calls = s.calls ∧
      (ackPodEventStep s pe).inflight = s.inflight ∧
      (ackPodEventStep s pe).dedupeMetric = s.dedupeMetric + 1) ∧
    (pe.eventId ≠ "" → s.inflight.contains pe.eventId = false →
      (ackPodEventStep s pe).calls =
          s.calls ++ [⟨pe.eventId, pe.eventId :: s.inflight⟩] ∧
      pe.eventId ∈ (AckCallRec.mk pe.eventId (pe.eventId :: s.inflight)).inflightAtCall ∧
      (ackPodEventStep s pe).inflight = s.inflight ∧
      (ackPodEventStep s pe).dedupeMetric = s.dedupeMetric) := by
  refine ⟨?_, ?_, ?_⟩
  · intro h
    simp [ackPodEventStep, h]
  · intro h1 h2
    have h2m : pe.eventId ∈ s.inflight := by simpa using h2
    refine ⟨?_, ?_, ?_⟩ <;> simp [ackPodEventStep, h1, h2m]
  · intro h1 h2
    have h2m : pe.eventId ∉ s.inflight := by simpa using h2
    refine ⟨?_, ?_, ?_, ?_⟩
    · simp [ackPodEventStep, h1, h2m]
    · exact List.mem_cons_self _ _
    · simp [ackPodEventStep, h1, h2m, List.erase_cons_head]
    · simp [ackPodEventStep, h1, h2m]

/-- Witness for C5: dropping an empty id, skipping a duplicate of "u2",
and processing a fresh "u1" against the in-flight set ["u2"]. -/
theorem ack_worker_dedupe_guarantee_witness :
    (ackPodEventStep ⟨["u2"], 0, []⟩ ⟨⟨"", "", "", "", "", "", "", ""⟩, "", ""⟩ =
        ⟨["u2"], 0, []⟩) ∧
    ((ackPodEventStep ⟨["u2"], 0, []⟩ ⟨⟨"", "", "", "", "", "", "", ""⟩, "", "u2"⟩).dedupeMetric =
        0 + 1) ∧
    ((ackPodEventStep ⟨["u2"], 0, []⟩ ⟨⟨"", "", "", "", "", "", "", ""⟩, "", "u1"⟩).calls =
        [⟨"u1", ["u1", "u2"]⟩]) ∧
    ((ackPodEventStep ⟨["u2"], 0, []⟩ ⟨⟨"", "", "", "", "", "", "", ""⟩, "", "u1"⟩).inflight =
        ["u2"]) := by
  refine ⟨?_, ?_, ?_, ?_⟩
  · exact (ack_worker_dedupe_guarantee ⟨["u2"], 0, []⟩
      ⟨⟨"", "", "", "", "", "", "", ""⟩, "", ""⟩).1 rfl
  · exact ((ack_worker_dedupe_guarantee ⟨["u2"], 0, []⟩
      ⟨⟨"", "", "", "", "", "", "", ""⟩, "", "u2"⟩).2.1 (by decide) (by decide)).2.2
  · exact ((ack_worker_dedupe_guarantee ⟨["u2"], 0, []⟩
      ⟨⟨"", "", "", "", "", "", "", ""⟩, "", "u1"⟩).2.2 (by decide) (by decide)).1
  · exact ((ack_worker_dedupe_guarantee ⟨["u2"], 0, []⟩
      ⟨⟨"", "", "", "", "", "", "", ""⟩, "", "u1"⟩).2.2 (by decide) (by decide)).2.2.1

theorem bucketAux_filter_self (L : List (String × List MesosOffer)) (host : String) :
    bucketAux (L.filter (fun e => e.1 ≠ host)) host = [] := by
  induction L with
  | nil => rfl
  | cons e rest ih =>
    obtain ⟨h1, os⟩ := e
    simp only [ne_eq, decide_not] at ih ⊢
    by_cases hh : h1 = host
    · rw [List.filter_cons]
      simp [hh, ih]
    · rw [List.filter_cons]
      simp [hh, bucketAux, ih]

/-- C4: `LaunchPods` fails with the no-offer error and issues no call,
leaving the offer manager unchanged, when the host has no offers;
otherwise (with the pod conversions succeeding and the scheduler call
succeeding) it issues exactly one `ACCEPT` call carrying every offer id
of the host and a single `LAUNCH` operation whose tasks all carry the
agent id of the host's first offer, returns the pods, and removes the
host's entire offer bucket. -/
theorem launch_pods_no_offer_or_accept (convert : LaunchablePod → Except String MesosTaskInfo)
    (callOk : Bool) (om : OfferManager) (pods : List LaunchablePod) (hostname : String) :
    (om.GetOffers hostname = [] →
      LaunchPods convert callOk om pods hostname =
        (Except.error (noOfferMsg hostname), om, none)) ∧
    (∀ o os tasks, om.GetOffers hostname = o :: os →
      pods.mapM convert = Except.ok tasks → callOk = true →
      LaunchPods convert callOk om pods hostname =
        (Except.ok pods, om.RemoveOfferForHost hostname,
          some ⟨(o :: os).map (fun x => x.id),
            [tasks.map (fun t => ⟨t.taskId, o.agentId⟩)]⟩) ∧
      (∀ t ∈ tasks.map (fun t2 => (⟨t2.taskId, o.agentId⟩ : MesosTaskInfo)),
          t.agentId = o.agentId) ∧
      (om.RemoveOfferForHost hostname).GetOffers hostname = []) := by
  constructor
  · intro h
    simp [LaunchPods, h]
  · intro o os tasks hoff hmap hcall
    refine ⟨?_, ?_, ?_⟩
    · subst hcall
      simp only [LaunchPods, hoff, hmap]
      simp
    · intro t ht
      rw [List.mem_map] at ht
      obtain ⟨t2, ht2, hteq⟩ := ht
      rw [← hteq]
    · exact bucketAux_filter_self om.buckets hostname

/-- Witness for C4: a host with one offer and one convertible pod, and a
host without offers. -/
theorem launch_pods_no_offer_or_accept_witness :
    (LaunchPods (fun p => Except.ok ⟨p.podId, ""⟩) true
        ⟨[("h1", [⟨"o1", "ag1", []⟩])]⟩ [⟨"p1", "sp"⟩] "h2" =
      (Except.error (noOfferMsg "h2"), ⟨[("h1", [⟨"o1", "ag1", []⟩])]⟩, none)) ∧
    (LaunchPods (fun p => Except.ok ⟨p.podId, ""⟩) true
        ⟨[("h1", [⟨"o1", "ag1", []⟩])]⟩ [⟨"p1", "sp"⟩] "h1" =
      (Except.ok [⟨"p1", "sp"⟩],
        OfferManager.RemoveOfferForHost ⟨[("h1", [⟨"o1", "ag1", []⟩])]⟩ "h1",
        some ⟨["o1"], [[⟨"p1", "ag1"⟩]]⟩)) ∧
    (OfferManager.RemoveOfferForHost ⟨[("h1", [⟨"o1", "ag1", []⟩])]⟩ "h1").GetOffers "h1" =
      [] := by
  refine ⟨?_, ?_, ?_⟩
  · exact (launch_pods_no_offer_or_accept (fun p => Except.ok ⟨p.podId, ""⟩) true
      ⟨[("h1", [⟨"o1", "ag1", []⟩])]⟩ [⟨"p1", "sp"⟩] "h2").1 rfl
  · exact ((launch_pods_no_offer_or_accept (fun p => Except.ok ⟨p.podId, ""⟩) true
      ⟨[("h1", [⟨"o1", "ag1", []⟩])]⟩ [⟨"p1", "sp"⟩] "h1").2
      ⟨"o1", "ag1", []⟩ [] [⟨"p1", ""⟩] rfl rfl rfl).1
  · exact ((launch_pods_no_offer_or_accept (fun p => Except.ok ⟨p.podId, ""⟩) true
      ⟨[("h1", [⟨"o1", "ag1", []⟩])]⟩ [⟨"p1", "sp"⟩] "h1").2
      ⟨"o1", "ag1", []⟩ [] [⟨"p1", ""⟩] rfl rfl rfl).2.2
